import Mathlib

/- Shallow embedding of `src/diagram_generator.py`.

   Strings are modelled as `List Char`.  Python's whitespace set (used by
   `str.strip` and by the regex class `\s`) is modelled by `Char.isWhitespace`
   (space, tab, CR, LF); Python's case-insensitive regex matching is modelled
   by ASCII `Char.toLower`.  The inputs occurring in the repository and in the
   specification only involve these characters, so the models agree with
   CPython on them. -/

abbrev Str : Type := List Char

/-- Coerce a Lean string literal into the `List Char` model. -/
def strL (s : String) : Str := s.data

/-- Python `str.strip()`: drop leading and trailing whitespace. -/
def pyStrip (s : Str) : Str :=
  ((s.dropWhile Char.isWhitespace).reverse.dropWhile Char.isWhitespace).reverse

/-- Python `description.split('|')` (src line 53): split on the literal pipe
character, keeping empty tokens; the result is never the empty list. -/
def splitPipe : Str → List Str
  | [] => [[]]
  | c :: rest =>
    if c = '|' then [] :: splitPipe rest
    else
      match splitPipe rest with
      | t :: ts => (c :: t) :: ts
      | [] => [[c]]

/-- The pair loop of `GremlinParser._parse` (src lines 55-61): tokens are
consumed two at a time from index 0; token `2*i` is stripped and used as key,
token `2*i+1` (stripped) as its value; an empty stripped key discards the
pair; a trailing key with no value token is recorded with value `""`.
The function returns the ordered list of dictionary writes the loop performs. -/
def pairWrites : List Str → List (Str × Str)
  | [] => []
  | [k] => if pyStrip k = [] then [] else [(pyStrip k, [])]
  | k :: v :: rest =>
    if pyStrip k = [] then pairWrites rest
    else (pyStrip k, pyStrip v) :: pairWrites rest

/-- Writes produced by one `description` attribute (src lines 49-61):
strip it, skip it when empty, otherwise split on `|` and run the pair loop. -/
def descWrites (desc : Str) : List (Str × Str) :=
  let d := pyStrip desc
  if d = [] then [] else pairWrites (splitPipe d)

/-- All dictionary writes performed by `_parse` over the document: the
`description` attribute values are supplied in depth-first document order
(`root.iter()`, src line 47). -/
def parseWrites (descs : List Str) : List (Str × Str) :=
  (descs.map descWrites).flatten

/-- Python dict assignment `d[k] = v`: updates the value in place when the
key is present (keeping its position), otherwise appends the new entry. -/
def dictUpsert (d : List (Str × Str)) (k v : Str) : List (Str × Str) :=
  match d with
  | [] => [(k, v)]
  | (k', v') :: rest =>
    if k' = k then (k', v) :: rest else (k', v') :: dictUpsert rest k v

/-- Model of the Python dict built by `_parse`: an insertion-ordered
association list obtained by folding the writes in document order. -/
def gremlin_parse (descs : List Str) : List (Str × Str) :=
  (parseWrites descs).foldl (fun d kv => dictUpsert d kv.1 kv.2) []

/-- Lookup in the association-list model of a Python dict. -/
def lookupD (d : List (Str × Str)) (k : Str) : Option Str :=
  match d with
  | [] => none
  | (k', v) :: rest => if k' = k then some v else lookupD rest k

/-- Total lookup, `mappings[key]` for a key known to be present
(src line 113); absent keys give `[]` in the model. -/
def dictGet (d : List (Str × Str)) (k : Str) : Str :=
  match d with
  | [] => []
  | (k', v) :: rest => if k' = k then v else dictGet rest k

/-- The value of the last write for key `k` in a write list, if any. -/
def lastVal (ws : List (Str × Str)) (k : Str) : Option Str :=
  ((ws.filter (fun p => p.1 = k)).map Prod.snd).getLast?

/-- Bool test that `p` is an initial segment of `s`. -/
def frontMatch : Str → Str → Bool
  | [], _ => true
  | _ :: _, [] => false
  | a :: as, b :: bs => a == b && frontMatch as bs

/-- Bool test that `p` occurs as a contiguous segment of `s`. -/
def segIn (p : Str) : Str → Bool
  | [] => frontMatch p []
  | c :: rest => frontMatch p (c :: rest) || segIn p rest

/-- Python `s.replace(old, new)` for nonempty `old` (src lines 103-104 and the
`saxutils` helpers): scan left to right, replacing each non-overlapping
leftmost occurrence of `old` by `new`.  The `fuel` argument makes the
recursion structural; every step consumes at least one character of `s`, so
`fuel = s.length` computes the untruncated result. -/
def pyReplaceF (old new : Str) : Nat → Str → Str
  | _, [] => []
  | 0, s => s
  | fuel + 1, c :: rest =>
    if frontMatch old (c :: rest) && !old.isEmpty then
      new ++ pyReplaceF old new fuel ((c :: rest).drop old.length)
    else c :: pyReplaceF old new fuel rest

/-- Python `s.replace(old, new)` for nonempty `old`. -/
def pyReplace (old new s : Str) : Str := pyReplaceF old new s.length s

/-- Join a list of pieces with a separator in between. -/
def joinWith (sep : Str) : List Str → Str
  | [] => []
  | [p] => p
  | p :: q :: ps => p ++ sep ++ joinWith sep (q :: ps)

/-- Python `s.split(old)` for nonempty `old`, with the same scan as
`pyReplaceF`; used to characterise `pyReplace`. -/
def pySplitF (old : Str) : Nat → Str → List Str
  | _, [] => [[]]
  | 0, s => [s]
  | fuel + 1, c :: rest =>
    if frontMatch old (c :: rest) && !old.isEmpty then
      [] :: pySplitF old fuel ((c :: rest).drop old.length)
    else
      match pySplitF old fuel rest with
      | t :: ts => (c :: t) :: ts
      | [] => [[c]]

/-- Python `s.split(old)` for nonempty `old`. -/
def pySplitSep (old s : Str) : List Str := pySplitF old s.length s

/-- `xml.sax.saxutils.unescape` with default entities: replace `&lt;`, then
`&gt;`, then (last) `&amp;`. -/
def saxUnescape (s : Str) : Str :=
  pyReplace (strL "&amp;") (strL "&")
    (pyReplace (strL "&gt;") (strL ">")
      (pyReplace (strL "&lt;") (strL "<") s))

/-- `xml.sax.saxutils.escape` with default entities: replace `&` first, then
`<`, then `>`. -/
def saxEscape (s : Str) : Str :=
  pyReplace (strL ">") (strL "&gt;")
    (pyReplace (strL "<") (strL "&lt;")
      (pyReplace (strL "&") (strL "&amp;") s))

/-- `SvgTemplate._sanitize_string_for_svg` (src line 90):
`escape(unescape(value))`. -/
def sanitize_string_for_svg (v : Str) : Str := saxEscape (saxUnescape v)

/-- Match `key` case-insensitively as an initial segment, returning the rest. -/
def stripCI : Str → Str → Option Str
  | [], s => some s
  | _ :: _, [] => none
  | k :: ks, c :: cs => if k.toLower = c.toLower then stripCI ks cs else none

/-- Drop the maximal whitespace run at the front. -/
def dropWs (s : Str) : Str := s.dropWhile Char.isWhitespace

/-- Match the regex tail `\s*<`, returning the text after the `<`. -/
def closeTag : Str → Option Str
  | [] => none
  | c :: rest =>
    if c.isWhitespace then closeTag rest
    else if c = '<' then some rest else none

/-- Match the part of the placeholder pattern after its opening `>`:
`\s*` then the key (case-insensitive, matched literally thanks to
`re.escape`), then `\s*<` (src line 116).  Returns the text after the
closing `<`.  Since keys produced by the parser are stripped, the key never
starts with whitespace and this deterministic scan agrees with the
backtracking regex engine. -/
def afterGt (key s : Str) : Option Str :=
  match stripCI key (dropWs s) with
  | some r => closeTag r
  | none => none

/-- `search_pattern.search(raw_data)` as a Bool (src line 121): does the
placeholder pattern for `key` match anywhere? -/
def patSearch (key : Str) : Str → Bool
  | [] => false
  | c :: rest => (c == '>' && (afterGt key rest).isSome) || patSearch key rest

/-- `search_pattern.sub(replacement_string, raw_data)` (src line 123)
specialised to replacement values without a backslash: replace every
non-overlapping leftmost match of the placeholder pattern by
`>` ++ repl ++ `<`, the replacement spliced literally.  Python's `re.sub`
additionally processes backslash escapes and group references in the
replacement string; that general behaviour (including the `re.error` it can
raise) is modelled by `parseTemplateF`/`reSub` below, and `reSub_lit` proves
this literal splice is exactly `re.sub` whenever `repl` contains no
backslash.  `fuel = s.length` suffices since every step consumes at least
one character. -/
def regexSubF (key repl : Str) : Nat → Str → Str
  | _, [] => []
  | 0, s => s
  | fuel + 1, c :: rest =>
    if c = '>' then
      match afterGt key rest with
      | some rest2 => '>' :: (repl ++ '<' :: regexSubF key repl fuel rest2)
      | none => '>' :: regexSubF key repl fuel rest
    else c :: regexSubF key repl fuel rest

/-- `regexSubF` with enough fuel: `re.sub` for backslash-free replacement
values (see `reSub` for the general template semantics). -/
def regexSubAll (key repl s : Str) : Str := regexSubF key repl s.length s

/-- Stable insertion of a key into a length-descending sorted list: the new
element goes in front of the first strictly shorter one.  Inserting the
originally-earlier element into the sorted rest puts it before later keys of
equal length, which is exactly the stability of Python's `sorted`. -/
def insertDesc (x : Str) : List Str → List Str
  | [] => [x]
  | y :: ys => if y.length ≤ x.length then x :: y :: ys else y :: insertDesc x ys

/-- `sorted(mappings.keys(), key=len, reverse=True)` (src line 109): the
stable descending-by-length sort of the keys in dict insertion order. -/
def sortLenDesc : List Str → List Str
  | [] => []
  | x :: xs => insertDesc x (sortLenDesc xs)

/-- `os.path.basename` for POSIX paths: the part after the last `/`. -/
def osBasename (p : Str) : Str := (p.reverse.takeWhile (fun c => c ≠ '/')).reverse

/-- `os.path.splitext(name)[0]`: cut at the last dot, except that a basename
whose characters before that dot are all dots (or absent) has no extension. -/
def stripExt (name : Str) : Str :=
  match name.reverse.dropWhile (fun c => c ≠ '.') with
  | [] => name
  | _ :: restRev =>
    if restRev.reverse.all (fun c => c = '.') then name else restRev.reverse

/-- Two-digit zero-padded decimal, as in `strftime` fields `%d` and `%m`. -/
def pad2 (n : Nat) : Str := if n < 10 then '0' :: Nat.toDigits 10 n else Nat.toDigits 10 n

/-- `datetime.now().strftime("%d/%m/%Y")` (src line 102) applied to a given
local date. -/
def formatDMY (day month year : Nat) : Str :=
  pad2 day ++ '/' :: pad2 month ++ '/' :: Nat.toDigits 10 year

/-- One iteration of the key loop in `replace_fields` (src lines 112-126)
for sanitized values without a backslash (when `re.sub` splices the
replacement literally and cannot raise): look up the value, sanitize it, and
if the placeholder pattern matches somewhere in the current text, replace
every matching span and bump the replacement counter; otherwise leave the
state unchanged (the key is only logged as missing).  The general iteration
with `re.sub`'s template processing and error path is `stepKeyE` below;
`replace_fields_coreE_lit` proves the two agree on backslash-free values. -/
def stepKey (m : List (Str × Str)) (acc : Str × Nat) (key : Str) : Str × Nat :=
  let repl := sanitize_string_for_svg (dictGet m key)
  if patSearch key acc.1 then (regexSubAll key repl acc.1, acc.2 + 1) else acc

/-- The keyed-substitution phase of `replace_fields` (src lines 106-126) for
mappings whose sanitized values contain no backslash: fold the key loop over
the keys sorted longest-first, starting from the current text and a zero
counter.  `replace_fields_coreE` is the general phase with `re.sub`'s error
path; on backslash-free values the two coincide
(`replace_fields_coreE_lit`). -/
def replace_fields_core (m : List (Str × Str)) (s : Str) : Str × Nat :=
  (sortLenDesc (m.map Prod.fst)).foldl (stepKey m) (s, 0)

/-- `SvgTemplate.replace_fields` (src lines 92-126) for mappings whose
sanitized values contain no backslash (where the keyed phase cannot raise):
first the unconditional literal replacements of `TEMPLATE_NAME` (by the base
filename of the XML file, extension stripped) and of `CURRENT_DATE` (by the
current local date, passed here as day/month/year), then the keyed
substitutions. -/
def replace_fields (m : List (Str × Str)) (xmlFilename : Str)
    (day month year : Nat) (s : Str) : Str :=
  let tname := stripExt (osBasename xmlFilename)
  let cdate := formatDMY day month year
  (replace_fields_core m
    (pyReplace (strL "CURRENT_DATE") cdate
      (pyReplace (strL "TEMPLATE_NAME") tname s))).1

/-- Outcome of `GremlinParser._parse` (src lines 42-67): a mapping on
success, `None` on a malformed document (`ET.ParseError` is raised by
`ET.parse` before any mapping entry is built) or on a missing document file
(`FileNotFoundError` from `open`). -/
inductive ParseOutcome where
  | ok (m : List (Str × Str))
  | parseError
  | fileNotFound

/-- The value of `parser.mappings` seen by `main` (src line 216). -/
def parseResult : ParseOutcome → Option (List (Str × Str))
  | .ok m => some m
  | .parseError => none
  | .fileNotFound => none

/-- Control flow of `main` (src lines 200-227): `sys.exit(1)` when
`len(sys.argv)` is not 3 or 4; otherwise a `None` mapping skips the rendering
block, and `FileNotFoundError` for the template as well as any rendering
exception are caught and only logged, so the process falls off the end of
`main` and exits with status 0.  Result: (exit status, whether an output file
was produced). -/
def mainRun (argc : Nat) (p : ParseOutcome) (svgOk pdfOk : Bool) : Nat × Bool :=
  if argc = 3 ∨ argc = 4 then
    match parseResult p with
    | none => (0, false)
    | some _ =>
      if svgOk then (if pdfOk then (0, true) else (0, false)) else (0, false)
  else (1, false)

/-- One parsed element of a `re` replacement template: a literal character or
a group reference. -/
inductive TmplItem where
  | lit (c : Char)
  | group (n : Nat)
deriving DecidableEq

/-- ASCII octal digit test, `re._parser.OCTDIGITS`. -/
def isOct (c : Char) : Bool := '0' ≤ c && c ≤ '7'

/-- Decimal value of an ASCII digit string. -/
def digitsToNat (ds : Str) : Nat := ds.foldl (fun n c => n * 10 + (c.toNat - 48)) 0

/-- Octal value of an ASCII octal-digit string. -/
def octToNat (ds : Str) : Nat := ds.foldl (fun n c => n * 8 + (c.toNat - 48)) 0

/-- The single-character escapes of `re._parser.ESCAPES`:
`\a \b \f \n \r \t \v \\` map to their control characters (backslash to
itself); every other character is absent. -/
def escChar (c : Char) : Option Char :=
  if c = 'a' then some (Char.ofNat 7)
  else if c = 'b' then some (Char.ofNat 8)
  else if c = 'f' then some (Char.ofNat 12)
  else if c = 'n' then some (Char.ofNat 10)
  else if c = 'r' then some (Char.ofNat 13)
  else if c = 't' then some (Char.ofNat 9)
  else if c = 'v' then some (Char.ofNat 11)
  else if c = '\\' then some '\\'
  else none

/-- `re._parser.parse_template` for a pattern with `groups` capture groups
and an empty named-group table (the placeholder pattern of src line 116 has
neither): scan the replacement string left to right; an unescaped character
is a literal; a backslash starts an escape sequence:
`\g<digits>` is a group reference (any other `\g...` form is an error, the
named-group table being empty), `\0` plus up to two more octal digits is an
octal character escape, `\1`-`\9` followed by up to one more digit is a
numeric group reference — except that three octal digits form an octal
character escape (an error above `0o377`) — and referencing a group index
above `groups` is an error; the letter escapes of `ESCAPES` denote control
characters, any other escaped ASCII letter is an error, an escaped
non-letter keeps both characters, and a trailing lone backslash is an error.
`none` models the exception (`re.error` or the unknown-group `IndexError`)
that `re.sub` raises.  Fuel falls by one per scanned token, each consuming at
least one character, so `fuel = s.length` computes the untruncated result. -/
def parseTemplateF (groups : Nat) : Nat → Str → Option (List TmplItem)
  | _, [] => some []
  | 0, _ :: _ => none
  | fuel + 1, c :: rest =>
    if c = '\\' then
      match rest with
      | [] => none
      | e :: rest1 =>
        if e = 'g' then
          match rest1 with
          | '<' :: rest2 =>
            match rest2.dropWhile (fun d => d ≠ '>') with
            | [] => none
            | _ :: rest3 =>
              let name := rest2.takeWhile (fun d => d ≠ '>')
              if name ≠ [] ∧ name.all Char.isDigit ∧ digitsToNat name ≤ groups then
                (parseTemplateF groups fuel rest3).map
                  (fun items => TmplItem.group (digitsToNat name) :: items)
              else none
          | _ => none
        else if e = '0' then
          match rest1 with
          | o1 :: o2 :: rest2 =>
            if isOct o1 && isOct o2 then
              (parseTemplateF groups fuel rest2).map
                (fun items => TmplItem.lit (Char.ofNat (octToNat [o1, o2])) :: items)
            else if isOct o1 then
              (parseTemplateF groups fuel (o2 :: rest2)).map
                (fun items => TmplItem.lit (Char.ofNat (octToNat [o1])) :: items)
            else
              (parseTemplateF groups fuel rest1).map
                (fun items => TmplItem.lit (Char.ofNat 0) :: items)
          | [o1] =>
            if isOct o1 then some [TmplItem.lit (Char.ofNat (octToNat [o1]))]
            else
              (parseTemplateF groups fuel rest1).map
                (fun items => TmplItem.lit (Char.ofNat 0) :: items)
          | [] => some [TmplItem.lit (Char.ofNat 0)]
        else if e.isDigit then
          match rest1 with
          | d2 :: rest2 =>
            if d2.isDigit then
              match rest2 with
              | d3 :: rest3 =>
                if isOct e && isOct d2 && isOct d3 then
                  if octToNat [e, d2, d3] > 255 then none
                  else
                    (parseTemplateF groups fuel rest3).map
                      (fun items =>
                        TmplItem.lit (Char.ofNat (octToNat [e, d2, d3])) :: items)
                else if digitsToNat [e, d2] ≤ groups then
                  (parseTemplateF groups fuel rest2).map
                    (fun items => TmplItem.group (digitsToNat [e, d2]) :: items)
                else none
              | [] =>
                if digitsToNat [e, d2] ≤ groups then
                  some [TmplItem.group (digitsToNat [e, d2])]
                else none
            else if digitsToNat [e] ≤ groups then
              (parseTemplateF groups fuel rest1).map
                (fun items => TmplItem.group (digitsToNat [e]) :: items)
            else none
          | [] =>
            if digitsToNat [e] ≤ groups then some [TmplItem.group (digitsToNat [e])]
            else none
        else
          match escChar e with
          | some ch =>
            (parseTemplateF groups fuel rest1).map
              (fun items => TmplItem.lit ch :: items)
          | none =>
            if e.isAlpha then none
            else
              (parseTemplateF groups fuel rest1).map
                (fun items => TmplItem.lit '\\' :: TmplItem.lit e :: items)
    else
      (parseTemplateF groups fuel rest).map (fun items => TmplItem.lit c :: items)

/-- Expand a parsed replacement template at one match: a literal stands for
itself and a group reference inserts the matched span (the placeholder
pattern has no capture groups, so the only parseable reference is group 0,
the whole match). -/
def applyTmpl (items : List TmplItem) (whole : Str) : Str :=
  (items.map (fun it =>
    match it with
    | TmplItem.lit ch => [ch]
    | TmplItem.group _ => whole)).flatten

/-- `search_pattern.sub` with a parsed replacement template: replace every
non-overlapping leftmost match of the placeholder pattern by the template
expanded at that match.  `fuel = s.length` suffices. -/
def regexSubTF (key : Str) (items : List TmplItem) : Nat → Str → Str
  | _, [] => []
  | 0, s => s
  | fuel + 1, c :: rest =>
    if c = '>' then
      match afterGt key rest with
      | some rest2 =>
        applyTmpl items ('>' :: rest.take (rest.length - rest2.length)) ++
          regexSubTF key items fuel rest2
      | none => '>' :: regexSubTF key items fuel rest
    else c :: regexSubTF key items fuel rest

/-- Python `search_pattern.sub(replacement_string, raw_data)` in full
(src line 123): the replacement string is first parsed as a `re` replacement
template — `none` models the exception this raises on an invalid template —
and on success every matching span is replaced by the expanded template. -/
def reSub (key repl s : Str) : Option Str :=
  match parseTemplateF 0 repl.length repl with
  | none => none
  | some items => some (regexSubTF key items s.length s)

/-- One iteration of the key loop of `replace_fields` (src lines 112-126)
with the error path: an already-raised exception (`none`) passes through
(the loop is dead); otherwise, a key whose pattern matches nowhere leaves
the state unchanged (non-fatal, only logged), and a key that matches has
`re.sub` applied with the replacement string `>` ++ sanitized value ++ `<` —
`none` when that template is invalid, modelling the exception that aborts
the loop — with the replacement counter incremented on success. -/
def stepKeyE (m : List (Str × Str)) (acc : Option (Str × Nat)) (key : Str) :
    Option (Str × Nat) :=
  match acc with
  | none => none
  | some (s, n) =>
    if patSearch key s then
      match reSub key ('>' :: sanitize_string_for_svg (dictGet m key) ++ ['<']) s with
      | none => none
      | some s2 => some (s2, n + 1)
    else some (s, n)

/-- The keyed-substitution phase of `replace_fields` with the error path:
fold the faithful key loop over the keys sorted longest-first; `none` models
an exception propagating out of `replace_fields` (caught in `main`, which
then produces no output). -/
def replace_fields_coreE (m : List (Str × Str)) (s : Str) : Option (Str × Nat) :=
  (sortLenDesc (m.map Prod.fst)).foldl (stepKeyE m) (some (s, 0))

lemma frontMatch_append (p t : Str) : frontMatch p (p ++ t) = true := by
  induction p with
  | nil => rfl
  | cons a as ih => simp [frontMatch, ih]

lemma frontMatch_exists {p s : Str} (h : frontMatch p s = true) : ∃ t, s = p ++ t := by
  induction p generalizing s with
  | nil => exact ⟨s, rfl⟩
  | cons a as ih =>
    cases s with
    | nil => simp [frontMatch] at h
    | cons b bs =>
      simp only [frontMatch, Bool.and_eq_true, beq_iff_eq] at h
      obtain ⟨t, ht⟩ := ih h.2
      exact ⟨t, by simp [h.1, ht]⟩

lemma frontMatch_mono {p x : Str} (y : Str) (h : frontMatch p x = true) :
    frontMatch p (x ++ y) = true := by
  obtain ⟨t, rfl⟩ := frontMatch_exists h
  rw [List.append_assoc]
  exact frontMatch_append p (t ++ y)

lemma segIn_cons (p : Str) (c : Char) (rest : Str) :
    segIn p (c :: rest) = (frontMatch p (c :: rest) || segIn p rest) := rfl

/-- A text with no occurrence of (nonempty) `old` is returned unchanged by
`pyReplaceF`, for any fuel. -/
lemma pyReplaceF_no_occurrence (old new : Str) :
    ∀ (fuel : Nat) (s : Str), segIn old s = false → pyReplaceF old new fuel s = s := by
  intro fuel
  induction fuel with
  | zero => intro s _; cases s <;> rfl
  | succ n ih =>
    intro s hs
    cases s with
    | nil => rfl
    | cons c rest =>
      rw [segIn_cons, Bool.or_eq_false_iff] at hs
      have hcond : (frontMatch old (c :: rest) && !old.isEmpty) = false := by
        simp [hs.1]
      simp only [pyReplaceF, hcond, Bool.false_eq_true, if_false]
      rw [ih rest hs.2]

/-- Every character of a `pyReplaceF` result comes from the input or from the
replacement text. -/
lemma mem_pyReplaceF (old new : Str) :
    ∀ (fuel : Nat) (s : Str) (a : Char), a ∈ pyReplaceF old new fuel s → a ∈ s ∨ a ∈ new := by
  intro fuel
  induction fuel with
  | zero =>
    intro s a ha
    cases s with
    | nil => simp [pyReplaceF] at ha
    | cons c rest => exact Or.inl ha
  | succ n ih =>
    intro s a ha
    cases s with
    | nil => simp [pyReplaceF] at ha
    | cons c rest =>
      by_cases h : (frontMatch old (c :: rest) && !old.isEmpty) = true
      · simp only [pyReplaceF, h, if_true] at ha
        rcases List.mem_append.mp ha with h1 | h1
        · exact Or.inr h1
        · rcases ih _ a h1 with h2 | h2
          · exact Or.inl (List.drop_subset _ _ h2)
          · exact Or.inr h2
      · simp only [pyReplaceF, h, Bool.false_eq_true, if_false, List.mem_cons] at ha
        rcases ha with rfl | h1
        · exact Or.inl (List.mem_cons_self _ _)
        · rcases ih _ a h1 with h2 | h2
          · exact Or.inl (List.mem_cons_of_mem _ h2)
          · exact Or.inr h2

/-- Replacing the single character `c` by a `c`-free text removes every
occurrence of `c` (given enough fuel). -/
lemma not_mem_pyReplaceF_single (c : Char) (new : Str) (hnew : c ∉ new) :
    ∀ (fuel : Nat) (s : Str), s.length ≤ fuel → c ∉ pyReplaceF [c] new fuel s := by
  intro fuel
  induction fuel with
  | zero =>
    intro s hs
    have : s = [] := List.length_eq_zero.mp (Nat.le_zero.mp hs)
    subst this
    simp [pyReplaceF]
  | succ n ih =>
    intro s hs
    cases s with
    | nil => simp [pyReplaceF]
    | cons d rest =>
      by_cases hdc : c = d
      · subst hdc
        have hcond : (frontMatch [c] (c :: rest) && !([c].isEmpty)) = true := by
          simp [frontMatch]
        simp only [pyReplaceF, hcond, if_true]
        intro hmem
        rcases List.mem_append.mp hmem with h1 | h1
        · exact hnew h1
        · have hlen : rest.length ≤ n := Nat.le_of_succ_le_succ (by simpa using hs)
          exact ih rest hlen (by simpa using h1)
      · have hcond : (frontMatch [c] (d :: rest) && !([c].isEmpty)) = false := by
          simp [frontMatch, hdc]
        simp only [pyReplaceF, hcond, Bool.false_eq_true, if_false, List.mem_cons]
        intro hmem
        rcases hmem with h1 | h1
        · exact hdc h1
        · exact ih rest (Nat.le_of_succ_le_succ (by simpa using hs)) h1

lemma not_mem_pyReplace_single (c : Char) (new s : Str) (hnew : c ∉ new) :
    c ∉ pyReplace [c] new s :=
  not_mem_pyReplaceF_single c new hnew s.length s (Nat.le_refl _)

lemma mem_pyReplace {old new s : Str} {a : Char} (h : a ∈ pyReplace old new s) :
    a ∈ s ∨ a ∈ new := mem_pyReplaceF old new s.length s a h

/-- Sanitized values contain no literal `<`. -/
lemma lt_not_mem_sanitize (v : Str) : '<' ∉ sanitize_string_for_svg v := by
  unfold sanitize_string_for_svg saxEscape
  intro hmem
  rcases mem_pyReplace hmem with h | h
  · have hlt : strL "<" = ['<'] := rfl
    rw [hlt] at h
    exact not_mem_pyReplace_single '<' (strL "&lt;") _ (by decide) h
  · exact absurd h (by decide)

/-- Sanitized values contain no literal `>`. -/
lemma gt_not_mem_sanitize (v : Str) : '>' ∉ sanitize_string_for_svg v := by
  unfold sanitize_string_for_svg saxEscape
  have hgt : strL ">" = ['>'] := rfl
  rw [hgt]
  exact not_mem_pyReplace_single '>' (strL "&gt;") _ (by decide)

lemma pySplitF_ne_nil (old : Str) :
    ∀ (fuel : Nat) (s : Str), pySplitF old fuel s ≠ [] := by
  intro fuel
  induction fuel with
  | zero => intro s; cases s <;> simp [pySplitF]
  | succ n ih =>
    intro s
    cases s with
    | nil => simp [pySplitF]
    | cons c rest =>
      by_cases h : (frontMatch old (c :: rest) && !old.isEmpty) = true
      · simp [pySplitF, h]
      · rcases h' : pySplitF old n rest with _ | ⟨t, ts⟩
        · exact absurd h' (ih rest)
        · simp [pySplitF, h, h']

/-- The first piece of a split is an initial segment of the input. -/
lemma pySplitF_head_front (old : Str) :
    ∀ (fuel : Nat) (s p : Str) (ps : List Str),
      pySplitF old fuel s = p :: ps → ∃ t, s = p ++ t := by
  intro fuel
  induction fuel with
  | zero =>
    intro s p ps h
    cases s with
    | nil =>
      simp [pySplitF] at h
      exact ⟨[], by simp [h.1]⟩
    | cons c rest =>
      simp [pySplitF] at h
      exact ⟨[], by simp [h.1]⟩
  | succ n ih =>
    intro s p ps h
    cases s with
    | nil =>
      simp [pySplitF] at h
      exact ⟨[], by simp [h.1]⟩
    | cons c rest =>
      by_cases hc : (frontMatch old (c :: rest) && !old.isEmpty) = true
      · simp [pySplitF, hc] at h
        exact ⟨c :: rest, by simp [h.1]⟩
      · rcases h' : pySplitF old n rest with _ | ⟨t, ts⟩
        · exact absurd h' (pySplitF_ne_nil old n rest)
        · simp [pySplitF, hc, h'] at h
          obtain ⟨u, hu⟩ := ih rest t ts h'
          exact ⟨u, by simp [← h.1, hu]⟩

/-- No piece of a split on nonempty `old` contains an occurrence of `old`. -/
lemma pySplitF_pieces_free (old : Str) (hold : old ≠ []) :
    ∀ (fuel : Nat) (s : Str), s.length ≤ fuel →
      ∀ p ∈ pySplitF old fuel s, segIn old p = false := by
  have hfm_nil : segIn old [] = false := by
    cases old with
    | nil => exact absurd rfl hold
    | cons a as => rfl
  have hne : old.isEmpty = false := by
    cases old with
    | nil => exact absurd rfl hold
    | cons a as => rfl
  intro fuel
  induction fuel with
  | zero =>
    intro s hs p hp
    have : s = [] := List.length_eq_zero.mp (Nat.le_zero.mp hs)
    subst this
    simp [pySplitF] at hp
    subst hp
    exact hfm_nil
  | succ n ih =>
    intro s hs p hp
    cases s with
    | nil =>
      simp [pySplitF] at hp
      subst hp
      exact hfm_nil
    | cons c rest =>
      by_cases hc : (frontMatch old (c :: rest) && !old.isEmpty) = true
      · simp only [pySplitF, hc, if_true, List.mem_cons] at hp
        rcases hp with rfl | hp
        · exact hfm_nil
        · have hlen : ((c :: rest).drop old.length).length ≤ n := by
            rw [List.length_drop]
            have h1 : 1 ≤ old.length := by
              cases old with
              | nil => exact absurd rfl hold
              | cons a as => simp
            simp only [List.length_cons] at hs ⊢
            omega
          exact ih _ hlen p hp
      · have hfm : frontMatch old (c :: rest) = false := by
          cases hb : frontMatch old (c :: rest) with
          | false => rfl
          | true => exact absurd (by simp [hb, hne]) hc
        rcases h' : pySplitF old n rest with _ | ⟨t, ts⟩
        · exact absurd h' (pySplitF_ne_nil old n rest)
        · simp only [pySplitF, hc, if_false, h', List.mem_cons] at hp
          simp only [Bool.false_eq_true, if_false, h', List.mem_cons] at hp
          have hrestlen : rest.length ≤ n := by
            simp only [List.length_cons] at hs
            omega
          rcases hp with rfl | hp
          · rw [segIn_cons, Bool.or_eq_false_iff]
            constructor
            · cases hb : frontMatch old (c :: t) with
              | false => rfl
              | true =>
                obtain ⟨u, hu⟩ := pySplitF_head_front old n rest t ts h'
                have : frontMatch old ((c :: t) ++ u) = true := frontMatch_mono u hb
                rw [show (c :: t) ++ u = c :: rest by simp [hu]] at this
                exact absurd this (by simp [hfm])
            · exact ih rest hrestlen t (by rw [h']; exact List.mem_cons_self t ts)
          · exact ih rest hrestlen p (by rw [h']; exact List.mem_cons_of_mem t hp)

/-- `pyReplaceF` is: split on `old`, join with `new`. -/
lemma pyReplaceF_eq_joinWith (old new : Str) :
    ∀ (fuel : Nat) (s : Str),
      pyReplaceF old new fuel s = joinWith new (pySplitF old fuel s) := by
  intro fuel
  induction fuel with
  | zero => intro s; cases s <;> rfl
  | succ n ih =>
    intro s
    cases s with
    | nil => rfl
    | cons c rest =>
      by_cases hc : (frontMatch old (c :: rest) && !old.isEmpty) = true
      · rcases h' : pySplitF old n ((c :: rest).drop old.length) with _ | ⟨t, ts⟩
        · exact absurd h' (pySplitF_ne_nil old n _)
        · simp only [pyReplaceF, pySplitF, hc, if_true, ih, h', joinWith]
          simp
      · rcases h' : pySplitF old n rest with _ | ⟨t, ts⟩
        · exact absurd h' (pySplitF_ne_nil old n rest)
        · simp only [pyReplaceF, pySplitF, hc, if_false, ih, h']
          cases ts with
          | nil => simp [joinWith]
          | cons u us => simp [joinWith]

lemma pyReplace_eq_joinWith (old new s : Str) :
    pyReplace old new s = joinWith new (pySplitSep old s) :=
  pyReplaceF_eq_joinWith old new s.length s

lemma pySplitSep_pieces_free (old s : Str) (hold : old ≠ []) :
    ∀ p ∈ pySplitSep old s, segIn old p = false :=
  pySplitF_pieces_free old hold s.length s (Nat.le_refl _)

lemma pyReplace_no_occurrence (old new s : Str) (h : segIn old s = false) :
    pyReplace old new s = s :=
  pyReplaceF_no_occurrence old new s.length s h

lemma stripCI_decomp : ∀ (key s r : Str), stripCI key s = some r →
    ∃ k2, s = k2 ++ r ∧ k2.map Char.toLower = key.map Char.toLower := by
  intro key
  induction key with
  | nil =>
    intro s r h
    simp only [stripCI, Option.some_inj] at h
    exact ⟨[], by simp [h]⟩
  | cons k ks ih =>
    intro s r h
    cases s with
    | nil => simp [stripCI] at h
    | cons c cs =>
      simp only [stripCI] at h
      by_cases hk : k.toLower = c.toLower
      · rw [if_pos hk] at h
        obtain ⟨k2, hk2, hmap⟩ := ih cs r h
        exact ⟨c :: k2, by simp [hk2], by simp [hmap, hk]⟩
      · rw [if_neg hk] at h
        exact absurd h (by simp)

lemma closeTag_decomp : ∀ (s r : Str), closeTag s = some r →
    ∃ w, (∀ c ∈ w, c.isWhitespace = true) ∧ s = w ++ '<' :: r := by
  intro s
  induction s with
  | nil => intro r h; simp [closeTag] at h
  | cons c rest ih =>
    intro r h
    simp only [closeTag] at h
    by_cases hws : c.isWhitespace = true
    · rw [if_pos hws] at h
      obtain ⟨w, hw, hr⟩ := ih r h
      refine ⟨c :: w, ?_, by simp [hr]⟩
      intro d hd
      rcases List.mem_cons.mp hd with rfl | hd'
      · exact hws
      · exact hw d hd'
    · rw [if_neg hws] at h
      by_cases hlt : c = '<'
      · rw [if_pos hlt] at h
        refine ⟨[], by simp, ?_⟩
        simp [hlt, Option.some_inj.mp h]
      · rw [if_neg hlt] at h
        exact absurd h (by simp)

/-- Soundness of the placeholder matcher: a successful match after a `>`
decomposes the following text into whitespace, a case-insensitive copy of the
key, whitespace, the closing `<`, and the remainder — exactly the regex
`>\s*KEY\s*<` of src line 116. -/
lemma afterGt_decomp (key s r : Str) (h : afterGt key s = some r) :
    ∃ w1 k2 w2, s = w1 ++ k2 ++ w2 ++ '<' :: r ∧
      (∀ c ∈ w1, c.isWhitespace = true) ∧ (∀ c ∈ w2, c.isWhitespace = true) ∧
      k2.map Char.toLower = key.map Char.toLower := by
  unfold afterGt at h
  rcases hst : stripCI key (dropWs s) with _ | r1
  · rw [hst] at h; exact absurd h (by simp)
  · rw [hst] at h
    obtain ⟨k2, hk2, hmap⟩ := stripCI_decomp key (dropWs s) r1 hst
    obtain ⟨w2, hw2, hr1⟩ := closeTag_decomp r1 r h
    refine ⟨s.takeWhile Char.isWhitespace, k2, w2, ?_, ?_, hw2, hmap⟩
    · conv_lhs => rw [← List.takeWhile_append_dropWhile (p := Char.isWhitespace) (l := s)]
      rw [show s.dropWhile Char.isWhitespace = dropWs s from rfl, hk2, hr1]
      simp [List.append_assoc]
    · intro c hc
      exact List.mem_takeWhile_imp hc

lemma mem_insertDesc (x z : Str) : ∀ l, z ∈ insertDesc x l ↔ z = x ∨ z ∈ l := by
  intro l
  induction l with
  | nil => simp [insertDesc]
  | cons y ys ih =>
    by_cases h : y.length ≤ x.length
    · simp [insertDesc, h, List.mem_cons]
    · simp only [insertDesc, h, if_false, List.mem_cons, ih]
      tauto

lemma pairwise_insertDesc (x : Str) :
    ∀ l, List.Pairwise (fun a b : Str => b.length ≤ a.length) l →
      List.Pairwise (fun a b : Str => b.length ≤ a.length) (insertDesc x l) := by
  intro l
  induction l with
  | nil => intro _; simp [insertDesc]
  | cons y ys ih =>
    intro hp
    rcases List.pairwise_cons.mp hp with ⟨hy, hys⟩
    by_cases h : y.length ≤ x.length
    · rw [insertDesc, if_pos h]
      refine List.pairwise_cons.mpr ⟨?_, hp⟩
      intro z hz
      rcases List.mem_cons.mp hz with rfl | hz'
      · exact h
      · exact le_trans (hy z hz') h
    · rw [insertDesc, if_neg h]
      refine List.pairwise_cons.mpr ⟨?_, ih hys⟩
      intro z hz
      rcases (mem_insertDesc x z ys).mp hz with rfl | hz'
      · omega
      · exact hy z hz'

lemma sortLenDesc_pairwise :
    ∀ l, List.Pairwise (fun a b : Str => b.length ≤ a.length) (sortLenDesc l) := by
  intro l
  induction l with
  | nil => simp [sortLenDesc]
  | cons x xs ih => exact pairwise_insertDesc x _ ih

lemma insertDesc_perm (x : Str) : ∀ l, (insertDesc x l).Perm (x :: l) := by
  intro l
  induction l with
  | nil => simp [insertDesc]
  | cons y ys ih =>
    by_cases h : y.length ≤ x.length
    · rw [insertDesc, if_pos h]
    · rw [insertDesc, if_neg h]
      exact (ih.cons y).trans (List.Perm.swap x y ys)

lemma sortLenDesc_perm : ∀ l, (sortLenDesc l).Perm l := by
  intro l
  induction l with
  | nil => simp [sortLenDesc]
  | cons x xs ih => exact (insertDesc_perm x (sortLenDesc xs)).trans (ih.cons x)

/-- Left-biased choice on options, used to state the fold lemma. -/
def orO (a b : Option Str) : Option Str :=
  match a with
  | some v => some v
  | none => b

@[simp] lemma orO_none (b : Option Str) : orO none b = b := rfl

@[simp] lemma orO_some (v : Str) (b : Option Str) : orO (some v) b = some v := rfl

lemma getLast?_cons_orO (a : Str) : ∀ l : List Str, (a :: l).getLast? = orO l.getLast? (some a) := by
  intro l
  induction l generalizing a with
  | nil => rfl
  | cons b bs ih =>
    rw [List.getLast?_cons_cons, ih b]
    cases hbs : bs.getLast? with
    | none => simp
    | some x => simp

lemma lastVal_cons (k' v' k : Str) (ws : List (Str × Str)) :
    lastVal ((k', v') :: ws) k =
      if k' = k then orO (lastVal ws k) (some v') else lastVal ws k := by
  unfold lastVal
  rw [List.filter_cons]
  by_cases h : k' = k
  · simp only [h, decide_True, if_true, List.map_cons]
    exact getLast?_cons_orO v' _
  · simp [h]

lemma lookupD_upsert_self (d : List (Str × Str)) (k v : Str) :
    lookupD (dictUpsert d k v) k = some v := by
  induction d with
  | nil => simp [dictUpsert, lookupD]
  | cons p rest ih =>
    obtain ⟨k', v'⟩ := p
    by_cases h : k' = k
    · simp [dictUpsert, lookupD, h]
    · simp [dictUpsert, lookupD, h, ih]

lemma lookupD_upsert_ne (d : List (Str × Str)) (k v q : Str) (hne : q ≠ k) :
    lookupD (dictUpsert d k v) q = lookupD d q := by
  induction d with
  | nil => simp [dictUpsert, lookupD, Ne.symm hne]
  | cons p rest ih =>
    obtain ⟨k', v'⟩ := p
    by_cases h : k' = k
    · subst h
      simp [dictUpsert, lookupD, Ne.symm hne]
    · by_cases hq : k' = q
      · simp [dictUpsert, lookupD, h, hq, hne]
      · simp [dictUpsert, lookupD, h, hq, ih]

lemma lookupD_foldl (k : Str) : ∀ (ws : List (Str × Str)) (d : List (Str × Str)),
    lookupD (ws.foldl (fun d kv => dictUpsert d kv.1 kv.2) d) k =
      orO (lastVal ws k) (lookupD d k) := by
  intro ws
  induction ws with
  | nil => intro d; simp [lastVal]
  | cons p rest ih =>
    intro d
    obtain ⟨k', v'⟩ := p
    rw [List.foldl_cons, ih (dictUpsert d k' v'), lastVal_cons]
    by_cases h : k' = k
    · subst h
      rw [if_pos rfl, lookupD_upsert_self]
      cases lastVal rest k' <;> simp
    · rw [if_neg h, lookupD_upsert_ne d k' v' k (fun hk => h hk.symm)]

lemma keys_dictUpsert (d : List (Str × Str)) (k v : Str) :
    (dictUpsert d k v).map Prod.fst =
      if k ∈ d.map Prod.fst then d.map Prod.fst else d.map Prod.fst ++ [k] := by
  induction d with
  | nil => simp [dictUpsert]
  | cons p rest ih =>
    obtain ⟨k', v'⟩ := p
    by_cases h : k' = k
    · simp [dictUpsert, h]
    · simp only [dictUpsert, h, if_false, List.map_cons, ih]
      by_cases hmem : k ∈ rest.map Prod.fst
      · simp [hmem, h, Ne.symm h]
      · simp [hmem, h, Ne.symm h]

lemma nodup_keys_dictUpsert (d : List (Str × Str)) (k v : Str)
    (h : (d.map Prod.fst).Nodup) : ((dictUpsert d k v).map Prod.fst).Nodup := by
  rw [keys_dictUpsert]
  by_cases hmem : k ∈ d.map Prod.fst
  · simp [hmem, h]
  · simp only [hmem, if_false]
    rw [List.nodup_append]
    exact ⟨h, List.nodup_singleton k, by simp [hmem]⟩

lemma nodup_keys_foldl : ∀ (ws : List (Str × Str)) (d : List (Str × Str)),
    (d.map Prod.fst).Nodup →
    ((ws.foldl (fun d kv => dictUpsert d kv.1 kv.2) d).map Prod.fst).Nodup := by
  intro ws
  induction ws with
  | nil => intro d h; exact h
  | cons p rest ih =>
    intro d h
    exact ih _ (nodup_keys_dictUpsert d p.1 p.2 h)

lemma lastVal_eq_none (k : Str) : ∀ ws : List (Str × Str),
    lastVal ws k = none ↔ k ∉ ws.map Prod.fst := by
  intro ws
  induction ws with
  | nil => simp [lastVal]
  | cons p rest ih =>
    obtain ⟨k', v'⟩ := p
    rw [lastVal_cons]
    by_cases h : k' = k
    · subst h
      rw [if_pos rfl]
      simp only [List.map_cons, List.mem_cons]
      constructor
      · intro he
        exfalso
        cases hl : lastVal rest k' <;> rw [hl] at he <;> simp at he
      · intro hne
        exact absurd (Or.inl trivial) hne
    · simp [h, ih, Ne.symm h]

lemma dropWhile_head_false (p : Char → Bool) :
    ∀ (l : Str) (c : Char) (t : Str), List.dropWhile p l = c :: t → p c = false := by
  intro l
  induction l with
  | nil => intro c t h; simp [List.dropWhile] at h
  | cons a as ih =>
    intro c t h
    by_cases hp : p a = true
    · rw [List.dropWhile_cons, if_pos hp] at h
      exact ih c t h
    · rw [List.dropWhile_cons, if_neg hp] at h
      cases h
      simpa using hp

lemma dropWhile_dropWhile (p : Char → Bool) (l : Str) :
    List.dropWhile p (List.dropWhile p l) = List.dropWhile p l := by
  cases h : List.dropWhile p l with
  | nil => simp
  | cons c t =>
    have hc := dropWhile_head_false p l c t h
    rw [List.dropWhile_cons, if_neg (by simp [hc])]

lemma dropWhile_append_singleton (p : Char → Bool) (l : Str) (c : Char)
    (hc : p c = false) :
    List.dropWhile p (l ++ [c]) = List.dropWhile p l ++ [c] := by
  induction l with
  | nil => simp [List.dropWhile, hc]
  | cons a as ih =>
    by_cases hp : p a = true
    · simp only [List.cons_append, List.dropWhile_cons, hp, if_true, ih]
    · simp [List.dropWhile_cons, hp]

/-- Stripping is idempotent: `s.strip().strip() == s.strip()`. -/
lemma pyStrip_idem (s : Str) : pyStrip (pyStrip s) = pyStrip s := by
  unfold pyStrip
  cases hu : s.dropWhile Char.isWhitespace with
  | nil => simp
  | cons c t =>
    have hc : Char.isWhitespace c = false := dropWhile_head_false _ s c t hu
    rw [List.reverse_cons, dropWhile_append_singleton _ _ _ hc, List.reverse_append,
      List.reverse_singleton, List.singleton_append, List.dropWhile_cons,
      if_neg (by simp [hc]), List.reverse_cons, List.reverse_reverse,
      dropWhile_append_singleton _ _ _ hc, dropWhile_dropWhile]
    simp

/-- Every key recorded by the pair loop is nonempty and already stripped. -/
lemma pairWrites_keys : ∀ (n : Nat) (ts : List Str), ts.length ≤ n →
    ∀ p ∈ pairWrites ts, p.1 ≠ [] ∧ pyStrip p.1 = p.1 := by
  intro n
  induction n with
  | zero =>
    intro ts h p hp
    have : ts = [] := List.length_eq_zero.mp (Nat.le_zero.mp h)
    subst this
    simp [pairWrites] at hp
  | succ m ih =>
    intro ts h p hp
    cases ts with
    | nil => simp [pairWrites] at hp
    | cons k rest =>
      cases rest with
      | nil =>
        by_cases hk : pyStrip k = []
        · simp [pairWrites, hk] at hp
        · simp only [pairWrites, hk, if_false, List.mem_singleton] at hp
          subst hp
          exact ⟨hk, pyStrip_idem k⟩
      | cons v rest2 =>
        have hlen : rest2.length ≤ m := by
          simp only [List.length_cons] at h
          omega
        by_cases hk : pyStrip k = []
        · simp only [pairWrites, hk, if_true] at hp
          exact ih rest2 hlen p hp
        · simp only [pairWrites, hk, if_false, List.mem_cons] at hp
          rcases hp with rfl | hp'
          · exact ⟨hk, pyStrip_idem k⟩
          · exact ih rest2 hlen p hp'

/-- Every key among the document writes is nonempty and already stripped. -/
lemma parseWrites_keys (descs : List Str) :
    ∀ p ∈ parseWrites descs, p.1 ≠ [] ∧ pyStrip p.1 = p.1 := by
  intro p hp
  unfold parseWrites at hp
  rcases List.mem_flatten.mp hp with ⟨l, hl, hpl⟩
  rcases List.mem_map.mp hl with ⟨d, _, rfl⟩
  unfold descWrites at hpl
  by_cases hd : pyStrip d = []
  · simp [hd] at hpl
  · simp only [hd, if_false] at hpl
    exact pairWrites_keys _ _ (Nat.le_refl _) p hpl

/-- The pair loop on an even token list `k1, v1, k2, v2, ...` records exactly
the stripped pairs with nonempty keys, in order. -/
lemma pairWrites_pairs : ∀ kvs : List (Str × Str),
    pairWrites ((kvs.map (fun p => [p.1, p.2])).flatten) =
      kvs.filterMap
        (fun p => if pyStrip p.1 = [] then none else some (pyStrip p.1, pyStrip p.2)) := by
  intro kvs
  induction kvs with
  | nil => rfl
  | cons p rest ih =>
    obtain ⟨a, b⟩ := p
    by_cases h : pyStrip a = []
    · simp [pairWrites, h, ih, List.filterMap_cons]
    · simp [pairWrites, h, ih, List.filterMap_cons]

/-- The pair loop on an odd token list: the trailing unpaired token becomes a
key with the empty value, unless it strips to empty. -/
lemma pairWrites_odd : ∀ (kvs : List (Str × Str)) (k : Str),
    pairWrites ((kvs.map (fun p => [p.1, p.2])).flatten ++ [k]) =
      kvs.filterMap
        (fun p => if pyStrip p.1 = [] then none else some (pyStrip p.1, pyStrip p.2)) ++
        (if pyStrip k = [] then [] else [(pyStrip k, [])]) := by
  intro kvs k
  induction kvs with
  | nil =>
    by_cases h : pyStrip k = [] <;> simp [pairWrites, h]
  | cons p rest ih =>
    obtain ⟨a, b⟩ := p
    by_cases h : pyStrip a = []
    · simp [pairWrites, h, ih, List.filterMap_cons]
    · simp [pairWrites, h, ih, List.filterMap_cons]

/-- A backslash-free replacement string parses as the all-literal template. -/
lemma parseTemplateF_literal (groups : Nat) :
    ∀ (fuel : Nat) (s : Str), s.length ≤ fuel → '\\' ∉ s →
      parseTemplateF groups fuel s = some (s.map TmplItem.lit) := by
  intro fuel
  induction fuel with
  | zero =>
    intro s hs _
    have : s = [] := List.length_eq_zero.mp (Nat.le_zero.mp hs)
    subst this
    rfl
  | succ n ih =>
    intro s hs hb
    cases s with
    | nil => rfl
    | cons c rest =>
      have hc : ¬c = '\\' := fun h => hb (h ▸ List.mem_cons_self c rest)
      have hrest : '\\' ∉ rest := fun h => hb (List.mem_cons_of_mem c h)
      have hlen : rest.length ≤ n := by
        simp only [List.length_cons] at hs
        omega
      simp only [parseTemplateF, hc, if_false, ih rest hlen hrest, List.map_cons]
      rfl

/-- Expanding an all-literal template gives back the replacement string. -/
lemma applyTmpl_lit (whole : Str) :
    ∀ s : Str, applyTmpl (s.map TmplItem.lit) whole = s := by
  intro s
  induction s with
  | nil => rfl
  | cons c rest ih =>
    simp only [applyTmpl, List.map_cons, List.flatten_cons] at ih ⊢
    rw [ih]
    rfl

/-- Template substitution with an all-literal template of the shape
`>` value `<` is the literal splice `regexSubF`. -/
lemma regexSubTF_lit (key v : Str) :
    ∀ (fuel : Nat) (s : Str),
      regexSubTF key (('>' :: v ++ ['<']).map TmplItem.lit) fuel s =
        regexSubF key v fuel s := by
  intro fuel
  induction fuel with
  | zero => intro s; cases s <;> rfl
  | succ n ih =>
    intro s
    cases s with
    | nil => rfl
    | cons c rest =>
      by_cases hc : c = '>'
      · subst hc
        cases hm : afterGt key rest with
        | none =>
          simp only [regexSubTF, regexSubF, hm, if_pos rfl]
          rw [ih]
        | some rest2 =>
          simp only [regexSubTF, regexSubF, hm, if_pos rfl]
          rw [applyTmpl_lit, ih]
          simp
      · simp only [regexSubTF, regexSubF, if_neg hc]
        rw [ih]

/-- For a backslash-free replacement value, `re.sub` cannot raise and
splices `>` value `<` literally: it is exactly `regexSubAll`. -/
lemma reSub_lit (key v s : Str) (hb : '\\' ∉ v) :
    reSub key ('>' :: v ++ ['<']) s = some (regexSubAll key v s) := by
  have hb2 : '\\' ∉ ('>' :: v ++ ['<']) := by
    intro hmem
    rcases List.mem_cons.mp hmem with h | h
    · exact absurd h (by decide)
    · rcases List.mem_append.mp h with h | h
      · exact hb h
      · exact absurd h (by decide)
  unfold reSub
  rw [parseTemplateF_literal 0 _ _ (Nat.le_refl _) hb2]
  show some (regexSubTF key (('>' :: v ++ ['<']).map TmplItem.lit) s.length s) =
    some (regexSubAll key v s)
  rw [regexSubTF_lit]
  rfl

lemma stepKeyE_skip (m : List (Str × Str)) (s : Str) (n : Nat) (key : Str)
    (h : patSearch key s = false) : stepKeyE m (some (s, n)) key = some (s, n) := by
  simp [stepKeyE, h]

lemma stepKeyE_lit (m : List (Str × Str)) (s : Str) (n : Nat) (key : Str)
    (h : patSearch key s = true)
    (hb : '\\' ∉ sanitize_string_for_svg (dictGet m key)) :
    stepKeyE m (some (s, n)) key =
      some (regexSubAll key (sanitize_string_for_svg (dictGet m key)) s, n + 1) := by
  simp only [stepKeyE, h, if_true]
  rw [reSub_lit _ _ _ hb]

/-- An exception raised by an earlier key pass kills the rest of the loop. -/
lemma foldl_stepKeyE_none (m : List (Str × Str)) :
    ∀ keys : List Str, keys.foldl (stepKeyE m) none = none := by
  intro keys
  induction keys with
  | nil => rfl
  | cons k ks ih =>
    rw [List.foldl_cons]
    exact ih

/-- A dict lookup yields the default or one of the stored values. -/
lemma dictGet_mem (m : List (Str × Str)) (k : Str) :
    dictGet m k = [] ∨ dictGet m k ∈ m.map Prod.snd := by
  induction m with
  | nil => exact Or.inl rfl
  | cons p rest ih =>
    obtain ⟨k', v⟩ := p
    by_cases h : k' = k
    · simp [dictGet, h]
    · simp only [dictGet, h, if_false, List.map_cons, List.mem_cons]
      rcases ih with h1 | h1
      · exact Or.inl h1
      · exact Or.inr (Or.inr h1)

/-- On a mapping whose sanitized values are backslash-free the faithful keyed
phase never raises and agrees with the literal-splice phase. -/
lemma replace_fields_coreE_lit (m : List (Str × Str)) (s : Str)
    (hb : ∀ v ∈ m.map Prod.snd, '\\' ∉ sanitize_string_for_svg v) :
    replace_fields_coreE m s = some (replace_fields_core m s) := by
  have hkey : ∀ key : Str, '\\' ∉ sanitize_string_for_svg (dictGet m key) := by
    intro key
    rcases dictGet_mem m key with h | h
    · rw [h]
      decide
    · exact hb _ h
  have main : ∀ (keys : List Str) (s : Str) (n : Nat),
      keys.foldl (stepKeyE m) (some (s, n)) = some (keys.foldl (stepKey m) (s, n)) := by
    intro keys
    induction keys with
    | nil => intro s n; rfl
    | cons k ks ih =>
      intro s n
      rw [List.foldl_cons, List.foldl_cons]
      cases hp : patSearch k s with
      | false =>
        rw [stepKeyE_skip m s n k hp]
        have hstep : stepKey m (s, n) k = (s, n) := by simp [stepKey, hp]
        rw [hstep]
        exact ih s n
      | true =>
        rw [stepKeyE_lit m s n k hp (hkey k)]
        have hstep : stepKey m (s, n) k =
            (regexSubAll k (sanitize_string_for_svg (dictGet m k)) s, n + 1) := by
          simp [stepKey, hp]
        rw [hstep]
        exact ih _ _
  exact main _ s 0

/-- C1: `replace_fields` processes mapping keys in order of decreasing key
length — the processing order `sortLenDesc` is a permutation of the dict keys
whose lengths are pairwise non-increasing, so a longer key (in particular one
of which a shorter key is a proper prefix) is always processed before the
shorter one — and on the spec's example `{B1: x, B10: y}` (in either dict
insertion order) the placeholder that read `B10` receives `y` while the one
that read `B1` receives `x`: the shorter key never hijacks the longer key's
placeholder. -/
theorem longest_first_ordering :
    (∀ m : List (Str × Str),
        List.Pairwise (fun a b : Str => b.length ≤ a.length)
          (sortLenDesc (m.map Prod.fst)) ∧
        (sortLenDesc (m.map Prod.fst)).Perm (m.map Prod.fst)) ∧
    replace_fields [(strL "B1", strL "x"), (strL "B10", strL "y")]
        (strL "f.xml") 12 10 2026 (strL "<t>B1</t><t>B10</t>") =
      strL "<t>x</t><t>y</t>" ∧
    replace_fields [(strL "B10", strL "y"), (strL "B1", strL "x")]
        (strL "f.xml") 12 10 2026 (strL "<t>B1</t><t>B10</t>") =
      strL "<t>x</t><t>y</t>" :=
  ⟨fun m => ⟨sortLenDesc_pairwise _, sortLenDesc_perm _⟩, by decide, by decide⟩

/-- C2 counterexample: the sanitizer does not escape quotes — `escape` and
`unescape` from `xml.sax.saxutils` are called with their default entity maps,
which cover only `&`, `<`, `>` — so a double-quote value is returned
unchanged (not `&quot;`), a single-quote value is returned unchanged (not
`&apos;`), and a value already containing `&quot;` even gets double-escaped;
this refutes the claim that the five XML-sensitive characters are
un-escaped/re-escaped. -/
theorem quote_not_escaped :
    sanitize_string_for_svg (strL "\"") = strL "\"" ∧
    sanitize_string_for_svg (strL "\"") ≠ strL "&quot;" ∧
    sanitize_string_for_svg (strL "'") = strL "'" ∧
    sanitize_string_for_svg (strL "'") ≠ strL "&apos;" ∧
    sanitize_string_for_svg (strL "&quot;") = strL "&amp;quot;" :=
  ⟨by decide, by decide, by decide, by decide, by decide⟩

/-- C2 amended: sanitization first un-escapes the three default XML entities
`&amp;`, `&lt;`, `&gt;` and then re-escapes the three characters `&`, `<`,
`>` (quotes pass through unchanged); consequently a value containing `&amp;`
renders as `&amp;` (never double-escaped to `&amp;amp;`), a literal `<`
renders as `&lt;`, and no literal `<` or `>` survives sanitization. -/
theorem sanitize_three_entities :
    (∀ v : Str, '<' ∉ sanitize_string_for_svg v ∧ '>' ∉ sanitize_string_for_svg v) ∧
    sanitize_string_for_svg (strL "&amp;") = strL "&amp;" ∧
    sanitize_string_for_svg (strL "<") = strL "&lt;" ∧
    sanitize_string_for_svg (strL "a & b") = strL "a &amp; b" :=
  ⟨fun v => ⟨lt_not_mem_sanitize v, gt_not_mem_sanitize v⟩, by decide, by decide, by decide⟩

/-- C3 counterexample: a mapping value containing a backslash refutes the
claim that every matching span is replaced with the sanitized value and that
rendering always continues with the next key: the value backslash-`n` is
sanitized unchanged, but `re.sub` processes it as a replacement-template
escape, so the span `>K<` becomes `>`, a newline, `<` — not `>` ++ sanitized
value ++ `<` — while the value backslash-`1` is an invalid group reference
(the pattern has no groups), so the substitution raises and the key loop
aborts instead of completing. -/
theorem backslash_replacement_diverges :
    replace_fields_coreE [(strL "K", strL "\\n")] (strL ">K<") =
      some (strL ">\n<", 1) ∧
    sanitize_string_for_svg (strL "\\n") = strL "\\n" ∧
    strL ">\n<" ≠ '>' :: sanitize_string_for_svg (strL "\\n") ++ ['<'] ∧
    replace_fields_coreE [(strL "K", strL "\\1")] (strL ">K<") = none :=
  ⟨by decide, by decide, by decide, by decide⟩

/-- C3 (amended): for each key the renderer searches the current text for the
case-insensitive pattern `>`, whitespace, the literal key, whitespace, `<` —
a successful match decomposes exactly that way; a key whose pattern matches
nowhere is skipped non-fatally, text and counter unchanged, the fold
continuing with later keys (and an earlier error kills the remaining
passes); a key that matches somewhere has every matching span replaced
through `re.sub`, whose replacement string `>` ++ sanitized value ++ `<` is
processed as a replacement template: when the sanitized value contains no
backslash every span becomes exactly `>` ++ sanitized value ++ `<` and the
key is counted as substituted — on backslash-free mappings the whole faithful
phase agrees with the literal-splice phase — while an invalid template
aborts the pass with the error outcome; the concrete runs show a three-span
case-and-whitespace-varying template fully replaced, and a missing key not
stopping the later keys. -/
theorem placeholder_pattern_semantics :
    (∀ key s r : Str, afterGt key s = some r →
      ∃ w1 k2 w2, s = w1 ++ k2 ++ w2 ++ '<' :: r ∧
        (∀ c ∈ w1, c.isWhitespace = true) ∧ (∀ c ∈ w2, c.isWhitespace = true) ∧
        k2.map Char.toLower = key.map Char.toLower) ∧
    (∀ (m : List (Str × Str)) (s : Str) (n : Nat) (key : Str),
      patSearch key s = false → stepKeyE m (some (s, n)) key = some (s, n)) ∧
    (∀ (m : List (Str × Str)) (s : Str) (n : Nat) (key : Str),
      patSearch key s = true →
      '\\' ∉ sanitize_string_for_svg (dictGet m key) →
      stepKeyE m (some (s, n)) key =
        some (regexSubAll key (sanitize_string_for_svg (dictGet m key)) s, n + 1)) ∧
    (∀ (m : List (Str × Str)) (s : Str) (n : Nat) (key : Str),
      patSearch key s = true →
      reSub key ('>' :: sanitize_string_for_svg (dictGet m key) ++ ['<']) s = none →
      stepKeyE m (some (s, n)) key = none) ∧
    (∀ (m : List (Str × Str)) (keys : List Str),
      keys.foldl (stepKeyE m) none = none) ∧
    (∀ (m : List (Str × Str)) (s : Str),
      (∀ v ∈ m.map Prod.snd, '\\' ∉ sanitize_string_for_svg v) →
      replace_fields_coreE m s = some (replace_fields_core m s)) ∧
    replace_fields_coreE [(strL "key1", strL "v")]
        (strL "<t> KEY1 </t><u>key1</u><v>Key1</v>") =
      some (strL "<t>v</t><u>v</u><v>v</v>", 1) ∧
    replace_fields_coreE [(strL "ZZZZ", strL "q"), (strL "K", strL "v")]
        (strL "<t>K</t>") = some (strL "<t>v</t>", 1) := by
  refine ⟨afterGt_decomp, stepKeyE_skip, stepKeyE_lit, ?_, foldl_stepKeyE_none,
    replace_fields_coreE_lit, by decide, by decide⟩
  intro m s n key h herr
  simp only [stepKeyE, h, if_true]
  rw [herr]

theorem placeholder_pattern_semantics_witness :
    (∃ w1 k2 w2, strL "B1 <rest" = w1 ++ k2 ++ w2 ++ '<' :: strL "rest" ∧
      (∀ c ∈ w1, c.isWhitespace = true) ∧ (∀ c ∈ w2, c.isWhitespace = true) ∧
      k2.map Char.toLower = (strL "B1").map Char.toLower) ∧
    stepKeyE [] (some (strL "abc", 0)) (strL "K") = some (strL "abc", 0) ∧
    stepKeyE [(strL "K", strL "v")] (some (strL ">K<", 0)) (strL "K") =
      some (regexSubAll (strL "K")
        (sanitize_string_for_svg (dictGet [(strL "K", strL "v")] (strL "K")))
        (strL ">K<"), 1) ∧
    stepKeyE [(strL "K", strL "\\1")] (some (strL ">K<", 0)) (strL "K") = none ∧
    replace_fields_coreE [(strL "K", strL "v")] (strL ">K<") =
      some (replace_fields_core [(strL "K", strL "v")] (strL ">K<")) :=
  ⟨placeholder_pattern_semantics.1 (strL "B1") (strL "B1 <rest") (strL "rest")
      (by decide),
    placeholder_pattern_semantics.2.1 [] (strL "abc") 0 (strL "K") (by decide),
    placeholder_pattern_semantics.2.2.1 [(strL "K", strL "v")] (strL ">K<") 0
      (strL "K") (by decide) (by decide),
    placeholder_pattern_semantics.2.2.2.1 [(strL "K", strL "\\1")] (strL ">K<") 0
      (strL "K") (by decide) (by decide),
    placeholder_pattern_semantics.2.2.2.2.2.1 [(strL "K", strL "v")] (strL ">K<")
      (by decide)⟩

/-- C4: description tokens are processed in consecutive pairs from index 0 —
on an even token list the recorded writes are exactly the stripped
(key, value) pairs with nonempty keys in order, a trailing unpaired token
becomes a key with the empty-string value when its stripped form is
nonempty — and `"A|1|B|2|C"` extracts exactly `{A:1, B:2, C:""}`. -/
theorem pairing_rule :
    (∀ kvs : List (Str × Str),
      pairWrites ((kvs.map (fun p => [p.1, p.2])).flatten) =
        kvs.filterMap
          (fun p => if pyStrip p.1 = [] then none
                    else some (pyStrip p.1, pyStrip p.2))) ∧
    (∀ (kvs : List (Str × Str)) (k : Str),
      pairWrites ((kvs.map (fun p => [p.1, p.2])).flatten ++ [k]) =
        kvs.filterMap
          (fun p => if pyStrip p.1 = [] then none
                    else some (pyStrip p.1, pyStrip p.2)) ++
          (if pyStrip k = [] then [] else [(pyStrip k, [])])) ∧
    gremlin_parse [strL "A|1|B|2|C"] =
      [(strL "A", strL "1"), (strL "B", strL "2"), (strL "C", strL "")] :=
  ⟨pairWrites_pairs, pairWrites_odd, by decide⟩

/-- C5: a token pair whose key strips to empty is discarded entirely — the
recorded writes are those of the remaining tokens, independent of the paired
value token — and `"|1|B|2"` extracts exactly `{B:2}`. -/
theorem empty_key_discarded :
    (∀ (k v : Str) (rest : List Str), pyStrip k = [] →
      pairWrites (k :: v :: rest) = pairWrites rest) ∧
    gremlin_parse [strL "|1|B|2"] = [(strL "B", strL "2")] := by
  refine ⟨?_, by decide⟩
  intro k v rest h
  simp [pairWrites, h]

theorem empty_key_discarded_witness :
    pairWrites (strL " " :: strL "1" :: [strL "B"]) = pairWrites [strL "B"] :=
  empty_key_discarded.1 (strL " ") (strL "1") [strL "B"] (by decide)

/-- C6: the extracted mapping has exactly one entry per distinct key — its
key list has no duplicates and every recorded key is a nonempty, already
stripped token — and looking up any key yields the value of that key's last
write in document order (and a key is absent exactly when it was never
written). -/
theorem last_write_wins (descs : List Str) (k : Str) :
    ((gremlin_parse descs).map Prod.fst).Nodup ∧
    lookupD (gremlin_parse descs) k = lastVal (parseWrites descs) k ∧
    (lookupD (gremlin_parse descs) k = none ↔
      k ∉ (parseWrites descs).map Prod.fst) ∧
    (∀ p ∈ parseWrites descs, p.1 ≠ [] ∧ pyStrip p.1 = p.1) := by
  have h2 : lookupD (gremlin_parse descs) k = lastVal (parseWrites descs) k := by
    unfold gremlin_parse
    rw [lookupD_foldl]
    cases lastVal (parseWrites descs) k <;> simp [lookupD]
  refine ⟨nodup_keys_foldl _ [] (by simp), h2, ?_, parseWrites_keys descs⟩
  rw [h2]
  exact lastVal_eq_none k (parseWrites descs)

/-- C7: before any keyed substitution, `replace_fields` performs a plain
literal substring replacement of every occurrence of `TEMPLATE_NAME` (by the
source document's base filename with its extension stripped) and then of
`CURRENT_DATE` (by the local date formatted `DD/MM/YYYY`): the whole function
factors as the keyed phase applied after the two `pyReplace` passes;
`pyReplace` equals splitting on the token and re-joining with the
replacement, where no piece contains the token — so every occurrence is
replaced — and the concrete run replaces both tokens even inside an
unrelated attribute value, `conf/deck.xml` yielding the name `deck`. -/
theorem fixed_token_replacement :
    (∀ old new s : Str, pyReplace old new s = joinWith new (pySplitSep old s)) ∧
    (∀ old s : Str, old ≠ [] → ∀ p ∈ pySplitSep old s, segIn old p = false) ∧
    (∀ (m : List (Str × Str)) (x : Str) (d mo y : Nat) (s : Str),
      replace_fields m x d mo y s =
        (replace_fields_core m
          (pyReplace (strL "CURRENT_DATE") (formatDMY d mo y)
            (pyReplace (strL "TEMPLATE_NAME") (stripExt (osBasename x)) s))).1) ∧
    replace_fields [(strL "K", strL "v")] (strL "conf/deck.xml") 12 10 2026
        (strL "<rect id=\"TEMPLATE_NAME\"/><t>K</t>CURRENT_DATE") =
      strL "<rect id=\"deck\"/><t>v</t>12/10/2026" :=
  ⟨pyReplace_eq_joinWith, fun old s h => pySplitSep_pieces_free old s h,
    fun m x d mo y s => rfl, by decide⟩

theorem fixed_token_replacement_witness :
    segIn (strL "CURRENT_DATE") (strL "a ") = false :=
  fixed_token_replacement.2.1 (strL "CURRENT_DATE") (strL "a CURRENT_DATE b")
    (by decide) (strL "a ") (by decide)

/-- C8 counterexample: with both required arguments supplied (argc = 3) and a
malformed input document, `main` only logs the parse failure and falls
through, so the process exits with status 0 — not the non-zero status the
claim requires for this fatal error (no output is produced, though). -/
theorem parse_failure_exit_zero :
    mainRun 3 ParseOutcome.parseError true true = (0, false) := by decide

/-- C8 amended: the process exits non-zero (status 1) exactly when the
argument count is wrong; an extraction failure yields no mapping at all
(`parseResult` is `None` — no partial table) and the run produces no output,
and template or rendering failures likewise produce no output — but in all
these fatal-error cases the exception is caught and logged and the process
exits with status 0. -/
theorem exit_code_behavior :
    (∀ (argc : Nat) (p : ParseOutcome) (svgOk pdfOk : Bool),
      ¬(argc = 3 ∨ argc = 4) → mainRun argc p svgOk pdfOk = (1, false)) ∧
    (∀ (argc : Nat) (svgOk pdfOk : Bool),
      (mainRun argc ParseOutcome.parseError svgOk pdfOk).2 = false ∧
      (mainRun argc ParseOutcome.fileNotFound svgOk pdfOk).2 = false) ∧
    (∀ (argc : Nat) (p : ParseOutcome) (svgOk pdfOk : Bool),
      (argc = 3 ∨ argc = 4) → (mainRun argc p svgOk pdfOk).1 = 0) ∧
    parseResult ParseOutcome.parseError = none ∧
    parseResult ParseOutcome.fileNotFound = none := by
  refine ⟨?_, ?_, ?_, rfl, rfl⟩
  · intro argc p svgOk pdfOk h
    simp [mainRun, h]
  · intro argc svgOk pdfOk
    by_cases h : argc = 3 ∨ argc = 4 <;>
      simp [mainRun, parseResult, h]
  · intro argc p svgOk pdfOk h
    cases p <;> cases svgOk <;> cases pdfOk <;>
      simp [mainRun, parseResult, h]

theorem exit_code_behavior_witness :
    mainRun 2 ParseOutcome.parseError true true = (1, false) ∧
    (mainRun 3 (ParseOutcome.ok []) true true).1 = 0 :=
  ⟨exit_code_behavior.1 2 ParseOutcome.parseError true true (by decide),
    exit_code_behavior.2.2.1 3 (ParseOutcome.ok []) true true (Or.inl rfl)⟩

/-- C9: rendering with an empty mapping table performs no keyed pass — the
result is exactly the two fixed-token literal replacements (equivalently,
the template split on each token and re-joined with that token's
replacement, all other text passing through) — and a template containing
neither `TEMPLATE_NAME` nor `CURRENT_DATE` is returned byte-for-byte
unchanged. -/
theorem empty_mapping_frame :
    (∀ (x : Str) (d mo y : Nat) (s : Str),
      replace_fields [] x d mo y s =
        joinWith (formatDMY d mo y)
          (pySplitSep (strL "CURRENT_DATE")
            (joinWith (stripExt (osBasename x))
              (pySplitSep (strL "TEMPLATE_NAME") s)))) ∧
    (∀ (x : Str) (d mo y : Nat) (s : Str),
      segIn (strL "TEMPLATE_NAME") s = false →
      segIn (strL "CURRENT_DATE") s = false →
      replace_fields [] x d mo y s = s) := by
  constructor
  · intro x d mo y s
    have h0 : replace_fields [] x d mo y s =
        pyReplace (strL "CURRENT_DATE") (formatDMY d mo y)
          (pyReplace (strL "TEMPLATE_NAME") (stripExt (osBasename x)) s) := rfl
    rw [h0, pyReplace_eq_joinWith, pyReplace_eq_joinWith]
  · intro x d mo y s h1 h2
    have h0 : replace_fields [] x d mo y s =
        pyReplace (strL "CURRENT_DATE") (formatDMY d mo y)
          (pyReplace (strL "TEMPLATE_NAME") (stripExt (osBasename x)) s) := rfl
    rw [h0, pyReplace_no_occurrence _ _ _ h1, pyReplace_no_occurrence _ _ _ h2]

theorem empty_mapping_frame_witness :
    replace_fields [] (strL "f.xml") 12 10 2026 (strL "<svg>body</svg>") =
      strL "<svg>body</svg>" :=
  empty_mapping_frame.2 (strL "f.xml") 12 10 2026 (strL "<svg>body</svg>")
    (by decide) (by decide)

/-- C10: values substituted by earlier key passes are not protected from
later passes — each key's pattern is searched against the current, already
rewritten text — so with mapping `{B10: "B1", B1: "x"}` the template span
`>B10<` is first rewritten to `>B1<` by the `B10` pass and then rematched and
rewritten by the later `B1` pass, ending as `>x<` and not as `>B1<`. -/
theorem rewritten_value_rematched :
    regexSubAll (strL "B10") (sanitize_string_for_svg (strL "B1"))
        (strL ">B10<") = strL ">B1<" ∧
    replace_fields [(strL "B10", strL "B1"), (strL "B1", strL "x")]
        (strL "f.xml") 12 10 2026 (strL ">B10<") = strL ">x<" ∧
    strL ">x<" ≠ strL ">B1<" :=
  ⟨by decide, by decide, by decide⟩
